import Mathlib

/-!
Shallow embedding of the SOAP-style CRUD service in
`PraSOAP/PracticaSOAP/main.py`.

The program is a single HTTP endpoint that extracts an operation name and
flat parameters from an XML payload with regular expressions, performs one
of five CRUD operations against a JSON-file-backed list of users, and
returns an envelope-wrapped XML fragment.

Modelling choices:
* the persisted file is a `List User` threaded through the handler;
  `write_users` calls are recorded in a `writes` trace;
* Python `re.search` is modelled as a leftmost scan with greedy
  backtracking, specialised to the three patterns the program uses;
* pydantic validation of the `User` model (which raises when `email` or
  `age` is `None`) is modelled with `Except PyExn`;
* characters are Lean `Char`; `\d` and `\w` are taken in their ASCII
  reading, which is what the payloads of this service use.
-/

set_option autoImplicit false

namespace PraSOAP

/-- The pydantic `User` model (main.py lines 13–17). -/
structure User where
  id : Int
  name : String
  email : String
  age : Int
deriving DecidableEq, Repr

/-- The only exception the modelled handler can raise: pydantic's
`ValidationError`, raised by `User(...)` when a required field is `None`. -/
inductive PyExn where
  | validationError
deriving DecidableEq, Repr

/-- The flat parameter dictionary produced by `parse_soap_request`:
each key is present (`some`) or absent (`none`). -/
structure Params where
  id : Option Int
  name : Option String
  email : Option String
  age : Option Int
deriving DecidableEq, Repr

/-- Python `str(x)` applied to `params.get('name')`: `None` prints as
`"None"`, a string is unchanged (main.py line 176). -/
def pyStr : Option String → String
  | none => "None"
  | some s => s

/-- Python `max(xs, default=0)` on a list of integers. -/
def maxDefault0 : List Int → Int
  | [] => 0
  | x :: xs => xs.foldl max x

/-! ### The regex scanner (`parse_soap_request`, main.py lines 79–119) -/

/-- ASCII reading of the regex class `\w`. -/
def isWordChar (c : Char) : Bool := c.isAlphanum || c == '_'

/-- Numeric value of a digit string, as Python `int` on a `\d+` match. -/
def digitsToNat (ds : List Char) : Nat :=
  ds.foldl (fun a c => a * 10 + (c.toNat - 48)) 0

/-- Python substring test `pat in s`. -/
def containsSub (pat : List Char) : List Char → Bool
  | [] => pat.isPrefixOf []
  | c :: rest => pat.isPrefixOf (c :: rest) || containsSub pat rest

/-- `re.search`: try a match anchored at each position, leftmost first. -/
def searchPos {α : Type} (f : List Char → Option α) : List Char → Option α
  | [] => f []
  | c :: rest =>
    match f (c :: rest) with
    | some v => some v
    | none => searchPos f rest

/-- Anchored match of `opn(\d+)cls` (e.g. `<id>(\d+)</id>`): the literal
open tag, a nonempty maximal digit run, then the literal close tag.
Because the close tag starts with a non-digit, the greedy `\d+` with
backtracking succeeds exactly when the maximal run is followed by the
close tag. -/
def matchIntTagAt (opn cls : List Char) (s : List Char) : Option Nat :=
  if opn.isPrefixOf s then
    let rest := s.drop opn.length
    let ds := rest.takeWhile Char.isDigit
    if ds.isEmpty then none
    else if cls.isPrefixOf (rest.drop ds.length) then some (digitsToNat ds)
    else none
  else none

/-- Anchored match of `opn([^<]+)cls` (e.g. `<name>([^<]+)</name>`): the
maximal nonempty run of non-`<` characters after the open tag, followed by
the literal close tag (which starts with `<`, so no backtracking helps). -/
def matchTextTagAt (opn cls : List Char) (s : List Char) : Option (List Char) :=
  if opn.isPrefixOf s then
    let rest := s.drop opn.length
    let ds := rest.takeWhile (fun c => c != '<')
    if ds.isEmpty then none
    else if cls.isPrefixOf (rest.drop ds.length) then some ds
    else none
  else none

/-- Anchored match of `<(\w+)Request`: a `<`, then a greedy `\w+` group
that backtracks until the literal `Request` matches. The group is the
longest word prefix `j` (at least one character) such that `Request`
follows; greedy means the largest such `j` wins. -/
def matchOpAt : List Char → Option (List Char)
  | [] => none
  | c :: rest =>
    if c == '<' then
      let w := rest.takeWhile isWordChar
      match (List.range (w.length + 1)).reverse.find?
          (fun j => decide (1 ≤ j) && List.isPrefixOf "Request".data (rest.drop j)) with
      | some j => some (rest.take j)
      | none => none
    else none

/-- The result of `parse_soap_request`: Python returns `{}` when no
operation tag is found, modelled as `operation = none` with empty params. -/
structure ParseResult where
  operation : Option String
  params : Params
deriving DecidableEq, Repr

/-- `parse_soap_request` (main.py lines 79–119): find the operation name
with `<(\w+)Request`, then extract each of `id`, `name`, `email`, `age`
with its substring gate and tag regex. -/
def parse_soap_request (xml : String) : ParseResult :=
  let s := xml.data
  match searchPos matchOpAt s with
  | none => ⟨none, ⟨none, none, none, none⟩⟩
  | some op =>
    let pid :=
      if containsSub "id>".data s then
        searchPos (matchIntTagAt "<id>".data "</id>".data) s
      else none
    let pname :=
      if containsSub "name>".data s then
        searchPos (matchTextTagAt "<name>".data "</name>".data) s
      else none
    let pemail :=
      if containsSub "email>".data s then
        searchPos (matchTextTagAt "<email>".data "</email>".data) s
      else none
    let page :=
      if containsSub "age>".data s then
        searchPos (matchIntTagAt "<age>".data "</age>".data) s
      else none
    ⟨some (String.mk op),
     ⟨pid.map Int.ofNat, pname.map String.mk, pemail.map String.mk,
      page.map Int.ofNat⟩⟩

/-! ### Response formatting (main.py lines 56–77 and the dispatch bodies) -/

/-- `user_to_xml` (main.py lines 68–77). -/
def user_to_xml (u : User) : String :=
  "<User>\n    <id>" ++ toString u.id ++ "</id>\n    <name>" ++ u.name ++
  "</name>\n    <email>" ++ u.email ++ "</email>\n    <age>" ++
  toString u.age ++ "</age>\n</User>"

/-- `create_soap_response` (main.py lines 56–66); the source's XML
declaration literally says version "1-0". -/
def create_soap_response (body_content : String) : String :=
  "<?xml version=\"1-0\" encoding=\"UTF-8\"?>\n<soap:Envelope xmlns:soap=\"http://schemas.xmlsoap.org/soap/envelope/\">\n    <soap:Body>\n        "
  ++ body_content ++ "\n    </soap:Body>\n</soap:Envelope>"

def getAllBody (users : List User) : String :=
  "<GetAllUsersResponse>\n        " ++
  String.intercalate "\n        " (users.map user_to_xml) ++
  "\n    </GetAllUsersResponse>"

def getUserFoundBody (u : User) : String :=
  "<GetUserResponse>\n        " ++ user_to_xml u ++ "\n    </GetUserResponse>"

def getUserNotFoundBody : String :=
  "<GetUserResponse>\n        <error>User not found</error>\n    </GetUserResponse>"

def createBody (u : User) : String :=
  "<CreateUserResponse>\n        <success>true</success>\n        " ++
  user_to_xml u ++ "\n    </CreateUserResponse>"

def updateOkBody (u : User) : String :=
  "<UpdateUserResponse>\n        <success>true</success>\n        <message>User updated successfully</message>\n        "
  ++ user_to_xml u ++ "\n    </UpdateUserResponse>"

def updateFailBody : String :=
  "<UpdateUserResponse>\n        <success>false</success>\n        <error>User not found</error>\n    </UpdateUserResponse>"

def deleteBody : String :=
  "<DeleteUserResponse>\n        <success>true</success>\n        <message>User deleted successfully</message>\n    </DeleteUserResponse>"

def unknownBody : String :=
  "<Error>\n        <message>Unknown operation</message>\n    </Error>"

/-! ### The operation dispatcher (main.py lines 150–233) -/

/-- `users[i].name = params['name']` etc. (main.py lines 195–200): fields
present in `params` overwrite; absent fields are untouched; `id` is never
assigned. -/
def applyUpdates (p : Params) (u : User) : User :=
  { u with
    name := p.name.getD u.name
    email := p.email.getD u.email
    age := p.age.getD u.age }

/-- The UpdateUser loop (main.py lines 191–203): walk the list, update the
first record whose `id` equals the supplied id and stop (`break`); return
the new list and the updated record, or `none` when no record matches. -/
def updateFirst (uid : Option Int) (p : Params) : List User → Option (List User × User)
  | [] => none
  | u :: rest =>
    if uid = some u.id then
      let u2 := applyUpdates p u
      some (u2 :: rest, u2)
    else
      match updateFirst uid p rest with
      | some (rest2, uu) => some (u :: rest2, uu)
      | none => none

/-- Outcome of one request: the response fragment, the final file
contents, and the list of `write_users` calls (each with the content
written). -/
structure DispatchResult where
  body : String
  store : List User
  writes : List (List User)
deriving DecidableEq, Repr

/-- The `if operation == ...` chain of `soap_endpoint`
(main.py lines 150–233), acting on the users read from the file. -/
def dispatch (operation : Option String) (params : Params) (users : List User) :
    Except PyExn DispatchResult :=
  if operation = some "GetAllUsers" then
    .ok ⟨getAllBody users, users, []⟩
  else if operation = some "GetUser" then
    match users.find? (fun u => decide (params.id = some u.id)) with
    | some u => .ok ⟨getUserFoundBody u, users, []⟩
    | none => .ok ⟨getUserNotFoundBody, users, []⟩
  else if operation = some "CreateUser" then
    let new_id := maxDefault0 (users.map User.id) + 1
    match params.email, params.age with
    | some e, some a =>
      let nu : User := ⟨new_id, pyStr params.name, e, a⟩
      .ok ⟨createBody nu, users ++ [nu], [users ++ [nu]]⟩
    | some _, none => .error .validationError
    | none, _ => .error .validationError
  else if operation = some "UpdateUser" then
    match updateFirst params.id params users with
    | some (users2, uu) => .ok ⟨updateOkBody uu, users2, [users2]⟩
    | none => .ok ⟨updateFailBody, users, []⟩
  else if operation = some "DeleteUser" then
    let users2 := users.filter (fun u => decide (params.id ≠ some u.id))
    .ok ⟨deleteBody, users2, [users2]⟩
  else
    .ok ⟨unknownBody, users, []⟩

/-- The HTTP response object returned by the endpoint; FastAPI's
`Response` defaults to status 200. -/
structure HttpResponse where
  status : Nat
  media_type : String
  content : String
deriving DecidableEq, Repr

/-- `soap_endpoint` (main.py lines 133–242): parse the body, dispatch,
wrap the fragment in the SOAP envelope and return it as `text/xml`.
An unhandled pydantic exception propagates as `.error`. -/
def soap_endpoint (xml : String) (users : List User) :
    Except PyExn (HttpResponse × DispatchResult) :=
  (dispatch (parse_soap_request xml).operation (parse_soap_request xml).params
      users).map fun d =>
    (⟨200, "text/xml", create_soap_response d.body⟩, d)

/-- The sequence of ids assigned by a run of CreateUser requests: each
request acts on the store left by the previous one; the assigned id is
read off the appended record (the last element of the written store).
A raising request aborts the run. -/
def createdIds : List Params → List User → List Int
  | [], _ => []
  | p :: rest, users =>
    match dispatch (some "CreateUser") p users with
    | .ok d =>
      (match d.store.getLast? with
       | some u => [u.id]
       | none => []) ++ createdIds rest d.store
    | .error _ => []

/-! ### Helper lemmas -/

theorem le_foldl_max (a b : Int) (xs : List Int) (h : b ≤ a) :
    b ≤ xs.foldl max a := by
  induction xs generalizing a with
  | nil => simpa using h
  | cons x xs ih => exact ih (max a x) (le_trans h (le_max_left a x))

theorem mem_le_foldl_max (a : Int) (xs : List Int) :
    ∀ x ∈ xs, x ≤ xs.foldl max a := by
  induction xs generalizing a with
  | nil => simp
  | cons y ys ih =>
    intro x hx
    rcases List.mem_cons.mp hx with rfl | hx
    · exact le_foldl_max (max a x) x ys (le_max_right a x)
    · exact ih (max a y) x hx

theorem mem_le_maxDefault0 (xs : List Int) : ∀ x ∈ xs, x ≤ maxDefault0 xs := by
  cases xs with
  | nil => simp
  | cons y ys =>
    intro x hx
    rcases List.mem_cons.mp hx with rfl | hx
    · exact le_foldl_max x x ys le_rfl
    · exact mem_le_foldl_max y ys x hx

theorem id_lt_new_id (users : List User) (u : User) (hu : u ∈ users) :
    u.id < maxDefault0 (users.map User.id) + 1 :=
  Int.lt_add_one_iff.mpr
    (mem_le_maxDefault0 (users.map User.id) u.id (List.mem_map_of_mem User.id hu))

theorem updateFirst_map_id (uid : Option Int) (p : Params) (users : List User)
    (users2 : List User) (uu : User)
    (h : updateFirst uid p users = some (users2, uu)) :
    users2.map User.id = users.map User.id := by
  induction users generalizing users2 with
  | nil => simp [updateFirst] at h
  | cons u rest ih =>
    by_cases hc : uid = some u.id
    · simp only [updateFirst, if_pos hc] at h
      obtain ⟨rfl, rfl⟩ := Prod.mk.injEq .. ▸ (Option.some.injEq .. ▸ h)
      simp [applyUpdates]
    · simp only [updateFirst, if_neg hc] at h
      cases h2 : updateFirst uid p rest with
      | none => rw [h2] at h; simp at h
      | some v =>
        obtain ⟨rest2, uu2⟩ := v
        rw [h2] at h
        simp only [Option.some.injEq, Prod.mk.injEq] at h
        obtain ⟨rfl, rfl⟩ := h
        simp [ih rest2 h2]

theorem updateFirst_none (uid : Option Int) (p : Params) (users : List User)
    (h : ∀ u ∈ users, uid ≠ some u.id) :
    updateFirst uid p users = none := by
  induction users with
  | nil => rfl
  | cons u rest ih =>
    have hne : ¬ uid = some u.id := h u (List.mem_cons_self u rest)
    simp only [updateFirst, if_neg hne,
      ih (fun v hv => h v (List.mem_cons_of_mem u hv))]

theorem updateFirst_first_match (uid : Option Int) (p : Params)
    (l1 l2 : List User) (u : User)
    (h1 : ∀ v ∈ l1, uid ≠ some v.id) (hu : uid = some u.id) :
    updateFirst uid p (l1 ++ u :: l2) =
      some (l1 ++ applyUpdates p u :: l2, applyUpdates p u) := by
  induction l1 with
  | nil => simp [updateFirst, if_pos hu]
  | cons v vs ih =>
    have hne : ¬ uid = some v.id := h1 v (List.mem_cons_self v vs)
    have ih2 := ih (fun w hw => h1 w (List.mem_cons_of_mem v hw))
    simp only [List.cons_append, updateFirst, if_neg hne, List.append_eq, ih2]

/-- Inversion of the dispatcher's five write behaviours: a non-raising
request leaves the store alone with no write, or performs exactly the
CreateUser append, the UpdateUser in-place update, or the DeleteUser
filter, writing the new store once. -/
theorem dispatch_store_cases (op : Option String) (p : Params)
    (users : List User) (d : DispatchResult)
    (h : dispatch op p users = .ok d) :
    (d.store = users ∧ d.writes = []) ∨
    (∃ e a, p.email = some e ∧ p.age = some a ∧
      d.store = users ++ [⟨maxDefault0 (users.map User.id) + 1, pyStr p.name, e, a⟩] ∧
      d.writes = [d.store]) ∨
    (∃ users2 uu, updateFirst p.id p users = some (users2, uu) ∧
      d.store = users2 ∧ d.writes = [users2]) ∨
    (d.store = users.filter (fun u => decide (p.id ≠ some u.id)) ∧
      d.writes = [d.store]) := by
  unfold dispatch at h
  split at h
  · left; cases h; exact ⟨rfl, rfl⟩
  split at h
  · split at h <;> (cases h; exact Or.inl ⟨rfl, rfl⟩)
  split at h
  · cases he : p.email with
    | none => rw [he] at h; cases h
    | some e =>
      cases ha : p.age with
      | none => rw [he, ha] at h; cases h
      | some a =>
        rw [he, ha] at h
        cases h
        exact Or.inr (Or.inl ⟨e, a, rfl, rfl, rfl, rfl⟩)
  split at h
  · split at h
    next users2 uu hup =>
      cases h
      exact Or.inr (Or.inr (Or.inl ⟨users2, uu, hup, rfl, rfl⟩))
    next hup => cases h; exact Or.inl ⟨rfl, rfl⟩
  split at h
  · cases h; exact Or.inr (Or.inr (Or.inr ⟨rfl, rfl⟩))
  · cases h; exact Or.inl ⟨rfl, rfl⟩

/-- A CreateUser dispatch with both required fields present: the new
record gets id `max existing + 1`, is appended, and is written once. -/
theorem dispatch_create_ok (p : Params) (users : List User) (e : String) (a : Int)
    (he : p.email = some e) (ha : p.age = some a) :
    dispatch (some "CreateUser") p users =
      .ok ⟨createBody ⟨maxDefault0 (users.map User.id) + 1, pyStr p.name, e, a⟩,
        users ++ [⟨maxDefault0 (users.map User.id) + 1, pyStr p.name, e, a⟩],
        [users ++ [⟨maxDefault0 (users.map User.id) + 1, pyStr p.name, e, a⟩]]⟩ := by
  unfold dispatch
  rw [he, ha]
  rfl

/-- A CreateUser dispatch with `email` or `age` absent raises pydantic's
`ValidationError` before any write. -/
theorem dispatch_create_err (p : Params) (users : List User)
    (h : p.email = none ∨ p.age = none) :
    dispatch (some "CreateUser") p users = .error .validationError := by
  unfold dispatch
  rcases h with h | h
  · rw [h]; rfl
  · rw [h]
    cases p.email <;> rfl

/-- Inversion for CreateUser: a non-raising request determines the result
completely. -/
theorem dispatch_create_inv (p : Params) (users : List User) (d : DispatchResult)
    (h : dispatch (some "CreateUser") p users = .ok d) :
    ∃ e a, p.email = some e ∧ p.age = some a ∧
      d = ⟨createBody ⟨maxDefault0 (users.map User.id) + 1, pyStr p.name, e, a⟩,
        users ++ [⟨maxDefault0 (users.map User.id) + 1, pyStr p.name, e, a⟩],
        [users ++ [⟨maxDefault0 (users.map User.id) + 1, pyStr p.name, e, a⟩]]⟩ := by
  cases he : p.email with
  | none => rw [dispatch_create_err p users (Or.inl he)] at h; cases h
  | some e =>
    cases ha : p.age with
    | none => rw [dispatch_create_err p users (Or.inr ha)] at h; cases h
    | some a =>
      rw [dispatch_create_ok p users e a he ha] at h
      cases h
      exact ⟨e, a, rfl, rfl, rfl⟩

/-- The assigned-id stream of a CreateUser run is strictly increasing and
dominates every id already in the store. -/
theorem createdIds_chain (reqs : List Params) (users : List User) :
    List.Chain' (· < ·) (createdIds reqs users) ∧
    ∀ i ∈ createdIds reqs users, ∀ u ∈ users, u.id < i := by
  induction reqs generalizing users with
  | nil => simp [createdIds]
  | cons p rest ih =>
    cases h : dispatch (some "CreateUser") p users with
    | error e => simp [createdIds, h]
    | ok d =>
      obtain ⟨e, a, he, ha, rfl⟩ := dispatch_create_inv p users d h
      have hlist : createdIds (p :: rest) users =
          (⟨maxDefault0 (users.map User.id) + 1, pyStr p.name, e, a⟩ : User).id ::
            createdIds rest
              (users ++ [⟨maxDefault0 (users.map User.id) + 1, pyStr p.name, e, a⟩]) := by
        simp only [createdIds, h, List.getLast?_concat, List.singleton_append]
      rw [hlist]
      have ihs := ih (users ++ [⟨maxDefault0 (users.map User.id) + 1, pyStr p.name, e, a⟩])
      constructor
      · refine List.chain'_cons'.mpr ⟨fun y hy => ?_, ihs.1⟩
        exact ihs.2 y (List.mem_of_mem_head? hy)
          ⟨maxDefault0 (users.map User.id) + 1, pyStr p.name, e, a⟩
          (List.mem_append_right users (List.mem_singleton_self _))
      · intro i hi u hu
        rcases List.mem_cons.mp hi with rfl | hi
        · exact id_lt_new_id users u hu
        · exact ihs.2 i hi u (List.mem_append_left _ hu)

/-- Python `pat in s` on strings. -/
def strContains (pat s : String) : Bool := containsSub pat.data s.data

theorem dispatch_getUser_found (p : Params) (users : List User) (u : User)
    (h : users.find? (fun u => decide (p.id = some u.id)) = some u) :
    dispatch (some "GetUser") p users = .ok ⟨getUserFoundBody u, users, []⟩ := by
  unfold dispatch
  rw [h]
  rfl

theorem dispatch_getUser_none (p : Params) (users : List User)
    (h : users.find? (fun u => decide (p.id = some u.id)) = none) :
    dispatch (some "GetUser") p users = .ok ⟨getUserNotFoundBody, users, []⟩ := by
  unfold dispatch
  rw [h]
  rfl

theorem dispatch_update_found (p : Params) (users users2 : List User) (uu : User)
    (h : updateFirst p.id p users = some (users2, uu)) :
    dispatch (some "UpdateUser") p users = .ok ⟨updateOkBody uu, users2, [users2]⟩ := by
  unfold dispatch
  rw [h]
  rfl

theorem dispatch_update_none (p : Params) (users : List User)
    (h : updateFirst p.id p users = none) :
    dispatch (some "UpdateUser") p users = .ok ⟨updateFailBody, users, []⟩ := by
  unfold dispatch
  rw [h]
  rfl

theorem dispatch_delete (p : Params) (users : List User) :
    dispatch (some "DeleteUser") p users =
      .ok ⟨deleteBody, users.filter (fun u => decide (p.id ≠ some u.id)),
        [users.filter (fun u => decide (p.id ≠ some u.id))]⟩ := rfl

theorem find?_append_last (f : User → Bool) (l : List User) (x : User)
    (hl : ∀ u ∈ l, f u = false) (hx : f x = true) :
    (l ++ [x]).find? f = some x := by
  induction l with
  | nil => simp [List.find?_cons, hx]
  | cons u rest ih =>
    rw [List.cons_append, List.find?_cons_of_neg _
      (by simp [hl u (List.mem_cons_self u rest)])]
    exact ih fun v hv => hl v (List.mem_cons_of_mem u hv)

/-! ### Concrete fixtures used by the witnesses -/

def anaP : Params := ⟨none, some "Ana", some "a@x.com", some 30⟩
def leoP : Params := ⟨none, some "Leo", some "l@x.com", some 25⟩
def anaU : User := ⟨1, "Ana", "a@x.com", 30⟩

/-! ### Claims -/

/-- C1: Every CreateUser that creates a record assigns it
id = max(existing ids) + 1, or 1 on an empty store; and over any run of
CreateUser requests the assigned ids strictly increase. -/
theorem claim_C1_create_id (p : Params) (users : List User)
    (d : DispatchResult) (reqs : List Params)
    (h : dispatch (some "CreateUser") p users = .ok d) :
    d.store.map User.id = users.map User.id ++
      [if users = [] then 1 else maxDefault0 (users.map User.id) + 1] ∧
    List.Chain' (· < ·) (createdIds reqs users) := by
  obtain ⟨e, a, he, ha, rfl⟩ := dispatch_create_inv p users d h
  refine ⟨?_, (createdIds_chain reqs users).1⟩
  cases users with
  | nil => simp [maxDefault0]
  | cons u rest => simp

theorem claim_C1_create_id_witness :
    ((⟨createBody anaU, [anaU], [[anaU]]⟩ : DispatchResult).store.map User.id =
      ([] : List User).map User.id ++
        [if ([] : List User) = [] then 1
         else maxDefault0 (([] : List User).map User.id) + 1]) ∧
    List.Chain' (· < ·) (createdIds [anaP, leoP] []) :=
  claim_C1_create_id anaP [] ⟨createBody anaU, [anaU], [[anaU]]⟩ [anaP, leoP] rfl

/-- C2: pairwise-distinct ids are an invariant of every operation: both
the final store and every collection passed to `write_users` keep ids
pairwise distinct. -/
theorem claim_C2_ids_unique (op : String) (p : Params) (users : List User)
    (d : DispatchResult)
    (_hop : op = "GetAllUsers" ∨ op = "GetUser" ∨ op = "CreateUser" ∨
      op = "UpdateUser" ∨ op = "DeleteUser")
    (hnd : (users.map User.id).Nodup)
    (h : dispatch (some op) p users = .ok d) :
    (d.store.map User.id).Nodup ∧ ∀ w ∈ d.writes, (w.map User.id).Nodup := by
  rcases dispatch_store_cases (some op) p users d h with
    ⟨hs, hw⟩ | ⟨e, a, he, ha, hs, hw⟩ | ⟨users2, uu, hup, hs, hw⟩ | ⟨hs, hw⟩
  · rw [hs, hw]; exact ⟨hnd, by simp⟩
  · have hnotin : (maxDefault0 (users.map User.id) + 1) ∉ users.map User.id := by
      intro hmem
      have := mem_le_maxDefault0 (users.map User.id) _ hmem
      omega
    have hstore : (d.store.map User.id).Nodup := by
      rw [hs, List.map_append]
      refine List.nodup_append.mpr ⟨hnd, List.nodup_singleton _, ?_⟩
      intro x hx hx2
      rw [List.map_singleton, List.mem_singleton] at hx2
      rw [hx2] at hx
      exact hnotin hx
    refine ⟨hstore, ?_⟩
    rw [hw]
    intro w hw2
    rw [List.mem_singleton] at hw2
    rw [hw2]
    exact hstore
  · have hstore : (d.store.map User.id).Nodup := by
      rw [hs, updateFirst_map_id p.id p users users2 uu hup]
      exact hnd
    refine ⟨hstore, ?_⟩
    rw [hw]
    intro w hw2
    rw [List.mem_singleton] at hw2
    rw [hw2, updateFirst_map_id p.id p users users2 uu hup]
    exact hnd
  · have hstore : (d.store.map User.id).Nodup := by
      rw [hs]
      exact List.Nodup.sublist (List.Sublist.map User.id (List.filter_sublist users)) hnd
    refine ⟨hstore, ?_⟩
    rw [hw]
    intro w hw2
    rw [List.mem_singleton] at hw2
    rw [hw2]
    exact hstore

theorem claim_C2_ids_unique_witness :
    (((⟨deleteBody, [], [[]]⟩ : DispatchResult).store.map User.id)).Nodup :=
  (claim_C2_ids_unique "DeleteUser" ⟨some 1, none, none, none⟩ [anaU]
    ⟨deleteBody, [], [[]]⟩ (Or.inr (Or.inr (Or.inr (Or.inr rfl))))
    (by simp) rfl).1

/-- C3 counterexample: a CreateUser request whose parsed payload lacks
`email` and `age` does NOT create a record: pydantic validation raises,
so nothing is created or persisted (the claim says the record is still
created with the missing fields stored as-is). -/
theorem claim_C3_missing_params_counterexample :
    soap_endpoint "<CreateUserRequest><name>Ana</name></CreateUserRequest>" [] =
      .error .validationError := by
  rfl

/-- C3 (amended): a missing `name` is stored as the string "None" with
no validation error, but a CreateUser request missing `email` or `age`
raises pydantic's ValidationError and creates and persists nothing. -/
theorem claim_C3_missing_params (p : Params) (users : List User)
    (e : String) (a : Int)
    (he : p.email = some e) (ha : p.age = some a) (hn : p.name = none) :
    dispatch (some "CreateUser") p users =
      .ok ⟨createBody ⟨maxDefault0 (users.map User.id) + 1, "None", e, a⟩,
        users ++ [⟨maxDefault0 (users.map User.id) + 1, "None", e, a⟩],
        [users ++ [⟨maxDefault0 (users.map User.id) + 1, "None", e, a⟩]]⟩ ∧
    ∀ q : Params, (q.email = none ∨ q.age = none) →
      dispatch (some "CreateUser") q users = .error .validationError := by
  constructor
  · have := dispatch_create_ok p users e a he ha
    rw [hn] at this
    exact this
  · exact fun q hq => dispatch_create_err q users hq

theorem claim_C3_missing_params_witness :
    dispatch (some "CreateUser") ⟨none, none, some "a@x.com", some 30⟩ [] =
      .ok ⟨createBody ⟨maxDefault0 (([] : List User).map User.id) + 1, "None", "a@x.com", 30⟩,
        [⟨maxDefault0 (([] : List User).map User.id) + 1, "None", "a@x.com", 30⟩],
        [[⟨maxDefault0 (([] : List User).map User.id) + 1, "None", "a@x.com", 30⟩]]⟩ :=
  (claim_C3_missing_params ⟨none, none, some "a@x.com", some 30⟩ [] "a@x.com" 30
    rfl rfl rfl).1

/-- C4: UpdateUser with a matching id and only `name` supplied rewrites
exactly the first matching record, changing its `name` and keeping its
`email` and `age`; every record before and after it is unchanged. -/
theorem claim_C4_update_frame (p : Params) (uid : Int) (nm : String)
    (l1 l2 : List User) (u : User)
    (hid : p.id = some uid) (hnm : p.name = some nm)
    (hem : p.email = none) (hag : p.age = none)
    (hu : u.id = uid) (hfirst : ∀ v ∈ l1, v.id ≠ uid) :
    dispatch (some "UpdateUser") p (l1 ++ u :: l2) =
      .ok ⟨updateOkBody ⟨u.id, nm, u.email, u.age⟩,
        l1 ++ ⟨u.id, nm, u.email, u.age⟩ :: l2,
        [l1 ++ ⟨u.id, nm, u.email, u.age⟩ :: l2]⟩ := by
  have happ : applyUpdates p u = ⟨u.id, nm, u.email, u.age⟩ := by
    simp [applyUpdates, hnm, hem, hag]
  have hup := updateFirst_first_match p.id p l1 l2 u
    (fun v hv hc => by
      rw [hid] at hc
      exact hfirst v hv (Option.some.inj hc).symm)
    (by rw [hid, hu])
  rw [happ] at hup
  exact dispatch_update_found p (l1 ++ u :: l2) _ _ hup

theorem claim_C4_update_frame_witness :
    dispatch (some "UpdateUser") ⟨some 1, some "Anna", none, none⟩
        ([⟨2, "Leo", "l@x.com", 25⟩] ++ anaU :: []) =
      .ok ⟨updateOkBody ⟨anaU.id, "Anna", anaU.email, anaU.age⟩,
        [⟨2, "Leo", "l@x.com", 25⟩] ++ ⟨anaU.id, "Anna", anaU.email, anaU.age⟩ :: [],
        [[⟨2, "Leo", "l@x.com", 25⟩] ++ ⟨anaU.id, "Anna", anaU.email, anaU.age⟩ :: []]⟩ :=
  claim_C4_update_frame ⟨some 1, some "Anna", none, none⟩ 1 "Anna"
    [⟨2, "Leo", "l@x.com", 25⟩] [] anaU rfl rfl rfl rfl rfl
    (by intro v hv; rw [List.mem_singleton] at hv; rw [hv]; decide)

/-- C6: DeleteUser removes exactly the records whose id equals the
supplied id, persists the result, and always answers the success
fragment — also when nothing matched, in which case the stored
collection is rewritten unchanged. -/
theorem claim_C6_delete (p : Params) (users : List User) :
    dispatch (some "DeleteUser") p users =
      .ok ⟨deleteBody, users.filter (fun u => decide (p.id ≠ some u.id)),
        [users.filter (fun u => decide (p.id ≠ some u.id))]⟩ ∧
    (∀ u ∈ users.filter (fun u => decide (p.id ≠ some u.id)), p.id ≠ some u.id) ∧
    (∀ u ∈ users, p.id ≠ some u.id →
      u ∈ users.filter (fun u => decide (p.id ≠ some u.id))) ∧
    strContains "<success>true</success>" deleteBody = true ∧
    ((∀ u ∈ users, p.id ≠ some u.id) →
      users.filter (fun u => decide (p.id ≠ some u.id)) = users) := by
  refine ⟨dispatch_delete p users, ?_, ?_, by decide, ?_⟩
  · intro u hu
    have := (List.mem_filter.mp hu).2
    exact of_decide_eq_true this
  · intro u hu hne
    exact List.mem_filter.mpr ⟨hu, decide_eq_true hne⟩
  · intro hall
    exact List.filter_eq_self.mpr fun u hu => decide_eq_true (hall u hu)

theorem claim_C6_delete_witness :
    dispatch (some "DeleteUser") ⟨some 1, none, none, none⟩ [anaU] =
      .ok ⟨deleteBody,
        [anaU].filter (fun u => decide ((⟨some 1, none, none, none⟩ : Params).id ≠ some u.id)),
        [[anaU].filter (fun u => decide ((⟨some 1, none, none, none⟩ : Params).id ≠ some u.id))]⟩ :=
  (claim_C6_delete ⟨some 1, none, none, none⟩ [anaU]).1

/-- C7: a valid CreateUser (name, email, age all supplied) yields a
record with the fresh id, and an immediately following GetUser on that
id returns that very record, hence the same name, email and age. -/
theorem claim_C7_create_then_get (p : Params) (users : List User)
    (nm e : String) (a : Int)
    (hn : p.name = some nm) (he : p.email = some e) (ha : p.age = some a) :
    dispatch (some "CreateUser") p users =
      .ok ⟨createBody ⟨maxDefault0 (users.map User.id) + 1, nm, e, a⟩,
        users ++ [⟨maxDefault0 (users.map User.id) + 1, nm, e, a⟩],
        [users ++ [⟨maxDefault0 (users.map User.id) + 1, nm, e, a⟩]]⟩ ∧
    dispatch (some "GetUser")
        ⟨some (maxDefault0 (users.map User.id) + 1), none, none, none⟩
        (users ++ [⟨maxDefault0 (users.map User.id) + 1, nm, e, a⟩]) =
      .ok ⟨getUserFoundBody ⟨maxDefault0 (users.map User.id) + 1, nm, e, a⟩,
        users ++ [⟨maxDefault0 (users.map User.id) + 1, nm, e, a⟩], []⟩ := by
  constructor
  · have := dispatch_create_ok p users e a he ha
    rw [hn] at this
    exact this
  · refine dispatch_getUser_found _ _ _ (find?_append_last _ users _ ?_ (by simp))
    intro u hu
    have hle := mem_le_maxDefault0 (users.map User.id) u.id
      (List.mem_map_of_mem User.id hu)
    refine decide_eq_false fun hc => ?_
    have : maxDefault0 (users.map User.id) + 1 = u.id := by
      simpa using congrArg (Option.getD · 0) hc
    omega

theorem claim_C7_create_then_get_witness :
    dispatch (some "GetUser")
        ⟨some (maxDefault0 (([] : List User).map User.id) + 1), none, none, none⟩
        ([] ++ [⟨maxDefault0 (([] : List User).map User.id) + 1, "Ana", "a@x.com", 30⟩]) =
      .ok ⟨getUserFoundBody ⟨maxDefault0 (([] : List User).map User.id) + 1, "Ana", "a@x.com", 30⟩,
        [] ++ [⟨maxDefault0 (([] : List User).map User.id) + 1, "Ana", "a@x.com", 30⟩], []⟩ :=
  (claim_C7_create_then_get anaP [] "Ana" "a@x.com" 30 rfl rfl rfl).2

/-- C10: a GetUser, UpdateUser or DeleteUser request with no parsed id
behaves exactly as a miss: GetUser answers the not-found fragment,
UpdateUser answers success=false and writes nothing, DeleteUser rewrites
the collection unchanged and reports success. -/
theorem claim_C10_missing_id (p : Params) (users : List User) (hid : p.id = none) :
    dispatch (some "GetUser") p users = .ok ⟨getUserNotFoundBody, users, []⟩ ∧
    dispatch (some "UpdateUser") p users = .ok ⟨updateFailBody, users, []⟩ ∧
    dispatch (some "DeleteUser") p users = .ok ⟨deleteBody, users, [users]⟩ := by
  have hne : ∀ u : User, u ∈ users → p.id ≠ some u.id := by
    intro u _ hc
    rw [hid] at hc
    exact Option.noConfusion hc
  refine ⟨?_, ?_, ?_⟩
  · refine dispatch_getUser_none p users (List.find?_eq_none.mpr ?_)
    intro u hu
    simp [hne u hu]
  · exact dispatch_update_none p users (updateFirst_none p.id p users hne)
  · have hfil : users.filter (fun u => decide (p.id ≠ some u.id)) = users :=
      List.filter_eq_self.mpr fun u hu => decide_eq_true (hne u hu)
    have := dispatch_delete p users
    rw [hfil] at this
    exact this

/-- C5: a GetUser whose id matches no stored record — in particular a
GetUser issued right after a DeleteUser of the same id — is answered
with an HTTP 200 `text/xml` envelope containing the `User not found`
fragment, not a transport-level error. -/
theorem claim_C5_not_found (xml : String) (p : Params) (users : List User)
    (hparse : parse_soap_request xml = ⟨some "GetUser", p⟩)
    (hmiss : ∀ u ∈ users, p.id ≠ some u.id) :
    soap_endpoint xml users =
      .ok (⟨200, "text/xml", create_soap_response getUserNotFoundBody⟩,
        ⟨getUserNotFoundBody, users, []⟩) ∧
    strContains "User not found" (create_soap_response getUserNotFoundBody) = true ∧
    ∀ (i : Int) (us : List User) (d : DispatchResult),
      dispatch (some "DeleteUser") ⟨some i, none, none, none⟩ us = .ok d →
      dispatch (some "GetUser") ⟨some i, none, none, none⟩ d.store =
        .ok ⟨getUserNotFoundBody, d.store, []⟩ := by
  refine ⟨?_, by decide, ?_⟩
  · have hfind : users.find? (fun u => decide (p.id = some u.id)) = none :=
      List.find?_eq_none.mpr fun u hu => by simp [hmiss u hu]
    unfold soap_endpoint
    rw [hparse]
    show Except.map
      (fun d => ((⟨200, "text/xml", create_soap_response d.body⟩ : HttpResponse), d))
      (dispatch (some "GetUser") p users) = _
    rw [dispatch_getUser_none p users hfind]
    rfl
  · intro i us d hdel
    rw [dispatch_delete ⟨some i, none, none, none⟩ us] at hdel
    cases hdel
    refine dispatch_getUser_none _ _ (List.find?_eq_none.mpr ?_)
    intro u hu
    have := (List.mem_filter.mp hu).2
    simpa using this

theorem claim_C5_not_found_witness :
    soap_endpoint "<GetUserRequest><id>1</id></GetUserRequest>" [] =
      .ok (⟨200, "text/xml", create_soap_response getUserNotFoundBody⟩,
        ⟨getUserNotFoundBody, [], []⟩) :=
  (claim_C5_not_found "<GetUserRequest><id>1</id></GetUserRequest>"
    ⟨some 1, none, none, none⟩ [] rfl (by simp)).1

/-- C8 counterexample: a CreateUser request whose payload lacks `email`
and `age` makes the handler raise (pydantic ValidationError), so the
endpoint does NOT return a 200 `text/xml` envelope for that body. -/
theorem claim_C8_always_200_counterexample :
    soap_endpoint "<CreateUserRequest><id>9</id></CreateUserRequest>" [] =
      .error .validationError := by
  rfl

/-- Every dispatch either succeeds or is a CreateUser with `email` or
`age` absent, which raises the pydantic ValidationError. -/
theorem dispatch_ok_or_create_err (op : Option String) (p : Params)
    (users : List User) :
    (∃ d, dispatch op p users = .ok d) ∨
    (dispatch op p users = .error .validationError ∧ op = some "CreateUser" ∧
      (p.email = none ∨ p.age = none)) := by
  unfold dispatch
  split
  · exact Or.inl ⟨_, rfl⟩
  split
  · split
    · exact Or.inl ⟨_, rfl⟩
    · exact Or.inl ⟨_, rfl⟩
  split
  next hop =>
    cases he : p.email with
    | none => exact Or.inr ⟨rfl, hop, Or.inl rfl⟩
    | some e =>
      cases ha : p.age with
      | none => exact Or.inr ⟨rfl, hop, Or.inr rfl⟩
      | some a => exact Or.inl ⟨_, rfl⟩
  split
  · split
    · exact Or.inl ⟨_, rfl⟩
    · exact Or.inl ⟨_, rfl⟩
  split
  · exact Or.inl ⟨_, rfl⟩
  · exact Or.inl ⟨_, rfl⟩

/-- C8 (amended): every request is answered 200 `text/xml` with an
envelope-wrapped fragment, except a CreateUser whose parsed payload
lacks `email` or `age`: there the handler raises and the framework
produces a transport-level error instead. -/
theorem claim_C8_always_200 (xml : String) (users : List User) :
    (∃ r d, soap_endpoint xml users = .ok (r, d) ∧ r.status = 200 ∧
      r.media_type = "text/xml" ∧ r.content = create_soap_response d.body) ∨
    (soap_endpoint xml users = .error .validationError ∧
      (parse_soap_request xml).operation = some "CreateUser" ∧
      ((parse_soap_request xml).params.email = none ∨
       (parse_soap_request xml).params.age = none)) := by
  unfold soap_endpoint
  rcases dispatch_ok_or_create_err (parse_soap_request xml).operation
      (parse_soap_request xml).params users with ⟨d, hd⟩ | ⟨herr, hop, hmem⟩
  · rw [hd]
    exact Or.inl ⟨_, d, rfl, rfl, rfl, rfl⟩
  · rw [herr]
    exact Or.inr ⟨rfl, hop, hmem⟩

theorem claim_C10_missing_id_witness :
    dispatch (some "GetUser") ⟨none, none, none, none⟩ [anaU] =
      .ok ⟨getUserNotFoundBody, [anaU], []⟩ :=
  (claim_C10_missing_id ⟨none, none, none, none⟩ [anaU] rfl).1

/-! ### Completeness of the tag scanner (used to settle C9) -/

/-- Somewhere in `s` the open tag is immediately followed by a nonempty
all-digit run and the close tag: exactly what `re.search` needs for
`opn(\d+)cls` to find a match. -/
def HasNumTag (opn cls s : List Char) : Prop :=
  ∃ pre ds post, s = pre ++ opn ++ ds ++ cls ++ post ∧ ds ≠ [] ∧
    ds.all Char.isDigit = true

theorem takeWhile_eq_of_all (p : Char → Bool) (ds : List Char) (c : Char)
    (t : List Char) (hall : ∀ x ∈ ds, p x = true) (hc : p c = false) :
    (ds ++ c :: t).takeWhile p = ds := by
  induction ds with
  | nil => simp [List.takeWhile_cons, hc]
  | cons d dsx ih =>
    have hd : p d = true := hall d (List.mem_cons_self d dsx)
    simp [List.takeWhile_cons, hd,
      ih fun x hx => hall x (List.mem_cons_of_mem d hx)]

/-- An anchored `opn(\d+)cls` match succeeds on a string that starts with
the decomposed occurrence. -/
theorem matchIntTagAt_of_decomp (opn ct ds post : List Char)
    (hds : ds ≠ []) (hall : ds.all Char.isDigit = true) :
    matchIntTagAt opn ('<' :: ct) (opn ++ ds ++ ('<' :: ct) ++ post) =
      some (digitsToNat ds) := by
  have hshape : opn ++ ds ++ ('<' :: ct) ++ post =
      opn ++ (ds ++ ('<' :: ct) ++ post) := by
    simp [List.append_assoc]
  rw [hshape]
  have hpre : opn.isPrefixOf (opn ++ (ds ++ ('<' :: ct) ++ post)) = true :=
    List.isPrefixOf_iff_prefix.mpr ⟨ds ++ ('<' :: ct) ++ post, rfl⟩
  have hdrop : (opn ++ (ds ++ ('<' :: ct) ++ post)).drop opn.length =
      ds ++ ('<' :: ct) ++ post := List.drop_left opn _
  have htake : (ds ++ ('<' :: ct) ++ post).takeWhile Char.isDigit = ds := by
    rw [List.append_assoc, List.cons_append]
    exact takeWhile_eq_of_all Char.isDigit ds '<' (ct ++ post)
      (List.all_eq_true.mp hall) (by decide)
  have hdrop2 : (ds ++ ('<' :: ct) ++ post).drop ds.length = ('<' :: ct) ++ post := by
    rw [List.append_assoc]
    exact List.drop_left ds _
  have hcls : ('<' :: ct).isPrefixOf (('<' :: ct) ++ post) = true :=
    List.isPrefixOf_iff_prefix.mpr ⟨post, rfl⟩
  have hempty : ds.isEmpty = false := by
    cases ds with
    | nil => exact absurd rfl hds
    | cons d dt => rfl
  simp only [matchIntTagAt, hpre, if_true, hdrop, htake, hdrop2, hcls, hempty,
    Bool.false_eq_true, if_false]

/-- An anchored `opn(\d+)cls` match yields a decomposition of the input. -/
theorem matchIntTagAt_some (opn cls s : List Char) (v : Nat)
    (h : matchIntTagAt opn cls s = some v) :
    ∃ ds post, s = opn ++ ds ++ cls ++ post ∧ ds ≠ [] ∧
      ds.all Char.isDigit = true := by
  simp only [matchIntTagAt] at h
  split at h
  case isFalse => cases h
  case isTrue hpre =>
    obtain ⟨t, ht⟩ := List.isPrefixOf_iff_prefix.mp hpre
    rw [← ht] at h ⊢
    rw [List.drop_left] at h
    split at h
    case isTrue => cases h
    case isFalse hne =>
      split at h
      case isFalse => cases h
      case isTrue hcls =>
        obtain ⟨post, hpost⟩ := List.isPrefixOf_iff_prefix.mp hcls
        have hdvec : t.drop (t.takeWhile Char.isDigit).length =
            t.dropWhile Char.isDigit := by
          nth_rewrite 2 [← List.takeWhile_append_dropWhile Char.isDigit t]
          exact List.drop_left _ _
        refine ⟨t.takeWhile Char.isDigit, post, ?_, ?_, ?_⟩
        · have ht2 : t = t.takeWhile Char.isDigit ++ (cls ++ post) := by
            rw [hpost, hdvec, List.takeWhile_append_dropWhile]
          rw [List.append_assoc, List.append_assoc]
          rw [← ht2]
        · intro hnil
          rw [hnil] at hne
          exact hne rfl
        · exact List.all_eq_true.mpr fun x hx => List.mem_takeWhile_imp hx

theorem hasNumTag_cons (opn cls : List Char) (c : Char) (s : List Char) :
    HasNumTag opn cls (c :: s) ↔
      (∃ ds post, c :: s = opn ++ ds ++ cls ++ post ∧ ds ≠ [] ∧
        ds.all Char.isDigit = true) ∨ HasNumTag opn cls s := by
  constructor
  · rintro ⟨pre, ds, post, heq, hds, hall⟩
    cases pre with
    | nil => exact Or.inl ⟨ds, post, by simpa using heq, hds, hall⟩
    | cons p pre2 =>
      right
      simp only [List.cons_append] at heq
      injection heq with h1 h2
      exact ⟨pre2, ds, post, h2, hds, hall⟩
  · rintro (⟨ds, post, heq, hds, hall⟩ | ⟨pre, ds, post, heq, hds, hall⟩)
    · exact ⟨[], ds, post, by simpa using heq, hds, hall⟩
    · exact ⟨c :: pre, ds, post, by simp [heq], hds, hall⟩

/-- `re.search` for `opn(\d+)cls` comes back empty exactly when no
occurrence exists anywhere in the payload. -/
theorem searchIntTag_none_iff (opn cls s : List Char)
    (hop : opn ≠ []) (hcl : ∃ ct, cls = '<' :: ct) :
    searchPos (matchIntTagAt opn cls) s = none ↔ ¬ HasNumTag opn cls s := by
  obtain ⟨ct, rfl⟩ := hcl
  induction s with
  | nil =>
    have hmatch : matchIntTagAt opn ('<' :: ct) [] = none := by
      cases opn with
      | nil => exact absurd rfl hop
      | cons o ot => simp [matchIntTagAt, List.isPrefixOf]
    simp only [searchPos, hmatch]
    constructor
    · rintro - ⟨pre, ds, post, heq, hds, hall⟩
      have heq2 : pre ++ (opn ++ (ds ++ (('<' :: ct) ++ post))) = [] := by
        simpa [List.append_assoc] using heq.symm
      have h2 := List.append_eq_nil.mp (List.append_eq_nil.mp heq2).2
      cases opn with
      | nil => exact hop rfl
      | cons o ot => cases h2.1
    · intro _
      trivial
  | cons c rest ih =>
    cases hf : matchIntTagAt opn ('<' :: ct) (c :: rest) with
    | some v =>
      simp only [searchPos, hf]
      constructor
      · intro h; cases h
      · intro hnot
        exfalso
        obtain ⟨ds, post, heq, hds, hall⟩ :=
          matchIntTagAt_some opn ('<' :: ct) (c :: rest) v hf
        exact hnot ⟨[], ds, post, by simpa using heq, hds, hall⟩
    | none =>
      simp only [searchPos, hf]
      rw [ih]
      constructor
      · intro hnot hTag
        rcases (hasNumTag_cons opn ('<' :: ct) c rest).mp hTag with
          ⟨ds, post, heq, hds, hall⟩ | hTail
        · rw [heq, matchIntTagAt_of_decomp opn ct ds post hds hall] at hf
          cases hf
        · exact hnot hTail
      · exact fun hnot hTail =>
          hnot ((hasNumTag_cons opn ('<' :: ct) c rest).mpr (Or.inr hTail))

theorem containsSub_iff (pat s : List Char) :
    containsSub pat s = true ↔ ∃ pre post, s = pre ++ pat ++ post := by
  induction s with
  | nil =>
    simp only [containsSub]
    constructor
    · intro h
      cases pat with
      | nil => exact ⟨[], [], rfl⟩
      | cons p pt => cases h
    · rintro ⟨pre, post, heq⟩
      have heq2 : pre ++ (pat ++ post) = [] := by
        simpa [List.append_assoc] using heq.symm
      have h2 := List.append_eq_nil.mp (List.append_eq_nil.mp heq2).2
      rw [h2.1]
      rfl
  | cons c rest ih =>
    simp only [containsSub, Bool.or_eq_true, List.isPrefixOf_iff_prefix, ih]
    constructor
    · rintro (⟨t, ht⟩ | ⟨pre, post, heq⟩)
      · exact ⟨[], t, by simp [← ht]⟩
      · exact ⟨c :: pre, post, by simp [heq]⟩
    · rintro ⟨pre, post, heq⟩
      cases pre with
      | nil =>
        left
        exact ⟨post, by simpa using heq.symm⟩
      | cons p pre2 =>
        right
        simp only [List.cons_append] at heq
        injection heq with h1 h2
        exact ⟨pre2, post, h2⟩

/-- An occurrence of the full numeric tag forces the substring gate
(e.g. `'id>' in xml`) to pass. -/
theorem hasNumTag_containsSub (g0 gate opn cls s : List Char)
    (hsplit : opn = g0 ++ gate) (h : HasNumTag opn cls s) :
    containsSub gate s = true := by
  obtain ⟨pre, ds, post, heq, -, -⟩ := h
  refine (containsSub_iff gate s).mpr ⟨pre ++ g0, ds ++ cls ++ post, ?_⟩
  rw [heq, hsplit]
  simp [List.append_assoc]

/-- A gated numeric-tag extraction (substring gate, then `re.search`)
comes back absent exactly when no numeric occurrence of the tag exists. -/
theorem gated_search_none_iff (s g0 gate opn cls : List Char)
    (hsplit : opn = g0 ++ gate) (hop : opn ≠ []) (hcl : ∃ ct, cls = '<' :: ct) :
    ((if containsSub gate s then searchPos (matchIntTagAt opn cls) s
      else none).map Int.ofNat = none) ↔ ¬ HasNumTag opn cls s := by
  by_cases hg : containsSub gate s = true
  · rw [if_pos hg]
    cases hsearch : searchPos (matchIntTagAt opn cls) s with
    | none =>
      simp only [Option.map_none']
      exact ⟨fun _ => (searchIntTag_none_iff opn cls s hop hcl).mp hsearch,
        fun _ => trivial⟩
    | some v =>
      have hTag : HasNumTag opn cls s := not_not.mp fun hnot => by
        rw [(searchIntTag_none_iff opn cls s hop hcl).mpr hnot] at hsearch
        cases hsearch
      simp [hTag]
  · rw [if_neg hg]
    simp only [Option.map_none']
    exact ⟨fun _ hTag => hg (hasNumTag_containsSub g0 gate opn cls s hsplit hTag),
      fun _ => trivial⟩

/-- C9 counterexample: in this payload the value inside the FIRST `<id>`
tag is non-numeric, yet the parsed `id` is not omitted: `re.search`
skips the bad tag and takes the later numeric one. -/
theorem claim_C9_nonnumeric_counterexample :
    (parse_soap_request
      "<GetUserRequest><id>abc</id><id>7</id></GetUserRequest>").params.id =
      some 7 := by
  rfl

/-- C9 (amended): the `id` (resp. `age`) field is omitted exactly when
the payload contains NO occurrence of the tag wrapping a numeric value —
a non-numeric occurrence is skipped without error and a later numeric
occurrence may still be taken; the other fields are still extracted, as
the concrete payload with a lone non-numeric id tag shows. -/
theorem claim_C9_nonnumeric (xml : String)
    (hop : (parse_soap_request xml).operation.isSome = true) :
    ((parse_soap_request xml).params.id = none ↔
      ¬ HasNumTag "<id>".data "</id>".data xml.data) ∧
    ((parse_soap_request xml).params.age = none ↔
      ¬ HasNumTag "<age>".data "</age>".data xml.data) ∧
    parse_soap_request
        "<GetUserRequest><id>abc</id><name>Ana</name></GetUserRequest>" =
      ⟨some "GetUser", ⟨none, some "Ana", none, none⟩⟩ := by
  cases hsp : searchPos matchOpAt xml.data with
  | none => simp [parse_soap_request, hsp] at hop
  | some op =>
    have hid : (parse_soap_request xml).params.id =
        (if containsSub "id>".data xml.data then
          searchPos (matchIntTagAt "<id>".data "</id>".data) xml.data
        else none).map Int.ofNat := by
      simp [parse_soap_request, hsp]
    have hage : (parse_soap_request xml).params.age =
        (if containsSub "age>".data xml.data then
          searchPos (matchIntTagAt "<age>".data "</age>".data) xml.data
        else none).map Int.ofNat := by
      simp [parse_soap_request, hsp]
    refine ⟨?_, ?_, by rfl⟩
    · rw [hid]
      exact gated_search_none_iff xml.data ['<'] "id>".data "<id>".data
        "</id>".data rfl (by decide) ⟨"/id>".data, rfl⟩
    · rw [hage]
      exact gated_search_none_iff xml.data ['<'] "age>".data "<age>".data
        "</age>".data rfl (by decide) ⟨"/age>".data, rfl⟩

theorem claim_C9_nonnumeric_witness :
    parse_soap_request
        "<GetUserRequest><id>abc</id><name>Ana</name></GetUserRequest>" =
      ⟨some "GetUser", ⟨none, some "Ana", none, none⟩⟩ :=
  (claim_C9_nonnumeric "<GetUserRequest><id>7</id></GetUserRequest>"
    (by rfl)).2.2

end PraSOAP
